import Mathlib

/-!
Verification of the online OPRF round and preprocessing orchestration of
the Pool OT-based OPRF (src/main.cpp).

The definitions below are a shallow embedding of the arithmetic core of
`main` (lines 925-1123) and of the phase-one tiling loop
(`phase_one_iknp_receive`, lines 76-85).  C `uint` (32-bit unsigned)
arithmetic is modelled on `Nat` with explicit reduction modulo `2 ^ 32`;
the C mask / shift operators `&`, `>>`, `<<`, `|` are modelled by the
corresponding `Nat` bitwise operators.  128-bit OT output blocks enter the
online phase only through their low 32-bit lane, so the environment stores
those lane values directly; the signed-reinterpretation detour the source
takes (`int32_t arr[4]; memcpy(...); uint v = arr[0];`) is modelled by
`toInt32` / `uintOfInt32`.
-/

namespace PoolOPRF

/-- Secret-key dimension `n` (src/main.cpp line 38). -/
def n : ℕ := 482

/-- Maximum number of evaluations `tau` (line 39). -/
def tau : ℕ := 2 ^ 16

/-- `lg_q` (line 40). -/
def lg_q : ℕ := 12

/-- Large modulus `q = 1 << lg_q` (line 41). -/
def q : ℕ := 2 ^ lg_q

/-- `lg_lg_p` (line 42). -/
def lg_lg_p : ℕ := 3

/-- `lg_p = 1 << lg_lg_p` (line 43). -/
def lg_p : ℕ := 2 ^ lg_lg_p

/-- Small modulus `p = 1 << lg_p` (line 44). -/
def p : ℕ := 2 ^ lg_p

/-- `lg_delta = 7 - lg_lg_p` (line 45). -/
def lg_delta : ℕ := 7 - lg_lg_p

/-- `delta = 1 << lg_delta` (line 46). -/
def delta : ℕ := 2 ^ lg_delta

/-- Phase-one stretching parameter `kappa` (line 49). -/
def kappa : ℕ := 6144

/-- Number of online rounds (line 55). -/
def num_rounds : ℕ := 10

/-- The modulus of C 32-bit unsigned arithmetic. -/
def U32 : ℕ := 2 ^ 32

/-- C `uint` subtraction `x - y`: wraps modulo `2 ^ 32`. -/
def usub (x y : ℕ) : ℕ := (x % U32 + (U32 - y % U32)) % U32

/-- Canonical natural representative of the integer `x` modulo `m`. -/
def imod (x : ℤ) (m : ℕ) : ℕ := (x % (m : ℤ)).toNat

/-- Reading a 32-bit pattern `v` as a signed `int32_t`
(the `memcpy` into `int32_t arr[4]` at lines 996-999, 1061, 1078, 1088). -/
def toInt32 (v : ℕ) : ℤ := if v < 2 ^ 31 then (v : ℤ) else (v : ℤ) - (U32 : ℤ)

/-- C conversion of a signed integer to `uint`: reduction modulo `2 ^ 32`
(the assignments `Sc_uint[i][0] = (arr0[0]);`, `uint Rs_r_uint = arr[0];`,
`uint Ss_uint = arr[0];`, `uint Rc_r_uint = arr[0];`). -/
def uintOfInt32 (x : ℤ) : ℕ := (x % (U32 : ℤ)).toNat

/-- The data the online round reads: the secret key, the phase-one choice
bits `b`, the derived bits `b_bar`, and the low 32-bit lanes of the
preprocessing blocks `Sc`, `Rs_r`, `Rc_r`, `Ss`, plus the phase-two
choices `bpr` (src/main.cpp lines 932-1003). -/
structure Env where
  sk : ℕ → Bool
  b : ℕ → Bool
  b_bar : ℕ → Bool
  Sc0 : ℕ → ℕ
  Sc1 : ℕ → ℕ
  Rs_r : ℕ → ℕ
  bpr : ℕ → ℕ
  Ss : ℕ → ℕ → ℕ
  Rc_r : ℕ → ℕ

/-- `Sc_uint[k][c]`: the pair of phase-one sender lanes indexed by a bit. -/
def scSel (E : Env) (k : ℕ) (c : Bool) : ℕ := if c then E.Sc1 k else E.Sc0 k

/-- Parsing of the random-oracle output:
`a[i] = ((high << 8) | low) & (q - 1)` with `high = dest[2*i]`,
`low = dest[2*i+1]` (lines 1036-1038). -/
def a_of (dest : ℕ → ℕ) (i : ℕ) : ℕ :=
  ((dest (2 * i) <<< 8) ||| dest (2 * i + 1)) &&& (q - 1)

/-- `e_0[i] = 0` (line 1039). -/
def e0 (i : ℕ) : ℕ := 0

/-- `c_i = (e_0[i] - Sc_uint[ctr*n+i][b_bar[i]]) & (q - 1)` (line 1041). -/
def c_i (E : Env) (ctr i : ℕ) : ℕ :=
  (usub (e0 i) (scSel E (ctr * n + i) (E.b_bar i))) &&& (q - 1)

/-- `e_1[i] = (a[i] + c_i + Sc_uint[ctr*n+i][1 - b_bar[i]]) & (q - 1)` (line 1042). -/
def e1 (E : Env) (dest : ℕ → ℕ) (ctr i : ℕ) : ℕ :=
  ((a_of dest i + c_i E ctr i + scSel E (ctr * n + i) (!E.b_bar i)) % U32) &&& (q - 1)

/-- A C `uint` accumulator: `acc = 0; for (i...) acc += f(i);`
with 32-bit wrap-around and no intermediate reduction. -/
def accU32 (f : ℕ → ℕ) : ℕ → ℕ
  | 0 => 0
  | i + 1 => (accU32 f i + f i) % U32

/-- The same accumulator reduced with the mask `& (q - 1)` after every
addition (the alternative the spec compares against). -/
def accMask (f : ℕ → ℕ) : ℕ → ℕ
  | 0 => 0
  | i + 1 => (accMask f i + f i) &&& (q - 1)

/-- `c_sum`: accumulated over the loop then reduced, `c_sum = c_sum & (q - 1)`
(lines 1025, 1044, 1047). -/
def c_sum (E : Env) (ctr : ℕ) : ℕ := accU32 (c_i E ctr) n &&& (q - 1)

/-- `bpr_bar = ((c_sum & (delta - 1)) - bpr[ctr]) & (delta - 1)` (line 1049). -/
def bpr_bar (E : Env) (ctr : ℕ) : ℕ :=
  (usub (c_sum E ctr &&& (delta - 1)) (E.bpr ctr)) &&& (delta - 1)

/-- The Request message: the triple `(e_0, e_1, bpr_bar)` the client hands
to the server (spec 4.F step 6; in the in-process example the server reads
these arrays directly). -/
def requestMsg (E : Env) (dest : ℕ → ℕ) (ctr : ℕ) : List ℕ × List ℕ × ℕ :=
  ((List.range n).map e0, (List.range n).map (e1 E dest ctr), bpr_bar E ctr)

/-- `atil[i][0] = (e_0[i] - Rs_r_uint) & (q - 1)` (line 1066). -/
def atil0 (E : Env) (ctr i : ℕ) : ℕ :=
  (usub (e0 i) (E.Rs_r (ctr * n + i))) &&& (q - 1)

/-- `atil[i][1] = (e_1[i] - Rs_r_uint) & (q - 1)` (line 1067). -/
def atil1 (E : Env) (dest : ℕ → ℕ) (ctr i : ℕ) : ℕ :=
  (usub (e1 E dest ctr i) (E.Rs_r (ctr * n + i))) &&& (q - 1)

/-- `atil[i][sk[i]]` (line 1069). -/
def atilSel (E : Env) (dest : ℕ → ℕ) (ctr i : ℕ) : ℕ :=
  if E.sk i then atil1 E dest ctr i else atil0 E ctr i

/-- `atil_sum`: accumulated then reduced, `atil_sum = atil_sum & (q - 1)`
(lines 1057, 1069, 1072). -/
def atil_sum (E : Env) (dest : ℕ → ℕ) (ctr : ℕ) : ℕ :=
  accU32 (atilSel E dest ctr) n &&& (q - 1)

/-- `y[k] = ((((atil_sum - k) & (q - 1)) >> lg_delta) + Ss_uint) & (p - 1)`
with `Ss_uint = lane0(Ss[ctr][(k - bpr_bar) & (delta - 1)])` (lines 1076-1083). -/
def y (E : Env) (dest : ℕ → ℕ) (ctr k : ℕ) : ℕ :=
  ((((usub (atil_sum E dest ctr) k) &&& (q - 1)) >>> lg_delta
      + E.Ss ctr ((usub k (bpr_bar E ctr)) &&& (delta - 1))) % U32) &&& (p - 1)

/-- The BlindEval reply: the `delta` entries `y[0..delta)`. -/
def yList (E : Env) (dest : ℕ → ℕ) (ctr : ℕ) : List ℕ :=
  (List.range delta).map (y E dest ctr)

/-- `y_final = y[c_sum & (delta - 1)] - Rc_r_uint` (lines 1092-1094). -/
def y_final (E : Env) (dest : ℕ → ℕ) (ctr : ℕ) : ℕ :=
  usub (y E dest ctr (c_sum E ctr &&& (delta - 1))) (E.Rc_r ctr)

/-- `temp_val = (c_sum - (c_sum & (delta - 1))) >> lg_delta` (line 1095). -/
def temp_val (c : ℕ) : ℕ := (usub c (c &&& (delta - 1))) >>> lg_delta

/-- The finalized client output `z = (y_final - temp_val) & (p - 1)` (line 1097). -/
def z (E : Env) (dest : ℕ → ℕ) (ctr : ℕ) : ℕ :=
  (usub (y_final E dest ctr) (temp_val (c_sum E ctr))) &&& (p - 1)

/-- The online loop of `main` (lines 1006-1120): starting from `ctr = 0`,
each iteration runs one round (Request, BlindEval, Finalize) at slot `ctr`
and then increments `ctr`.  `dests r` is the random-oracle output used in
round `r`.  Returns the final counter together with the list of outputs. -/
def session (E : Env) (dests : ℕ → ℕ → ℕ) : ℕ → ℕ × List ℕ
  | 0 => (0, [])
  | r + 1 =>
    ((session E dests r).1 + 1,
      (session E dests r).2 ++ [z E (dests r) (session E dests r).1])

/-- The number of online rounds `main` actually executes when asked for
`nr` rounds: the source proceeds to the loop unconditionally, with no
startup validation of `num_rounds` against `tau`. -/
def roundsExecuted (E : Env) (dests : ℕ → ℕ → ℕ) (nr : ℕ) : ℕ :=
  (session E dests nr).2.length

/-- Inner loop of the phase-one tiling (line 81-84):
`for (i = 0; i < m; i++) b[j*n + i] = b_n[i];` as successive updates. -/
def tileInner (b_n : ℕ → Bool) (j : ℕ) : ℕ → (ℕ → Bool) → ℕ → Bool
  | 0, arr => arr
  | i + 1, arr => Function.update (tileInner b_n j i arr) (j * n + i) (b_n i)

/-- Outer loop of the phase-one tiling (lines 79-85):
`for (j = 0; j < J; j++) { inner loop }`. -/
def tileOuter (b_n : ℕ → Bool) : ℕ → (ℕ → Bool) → ℕ → Bool
  | 0, arr => arr
  | j + 1, arr => tileInner b_n j n (tileOuter b_n j arr)

/-- The choice vector `b` produced by `phase_one_iknp_receive` from the
fresh `n`-bit pattern `b_n` and the initial contents `arr0` of `b`. -/
def phase_one_b (b_n arr0 : ℕ → Bool) : ℕ → Bool := tileOuter b_n tau arr0

/-- All-zero environment, used to instantiate theorems on concrete data. -/
def zeroEnv : Env where
  sk := fun _ => false
  b := fun _ => false
  b_bar := fun _ => false
  Sc0 := fun _ => 0
  Sc1 := fun _ => 0
  Rs_r := fun _ => 0
  bpr := fun _ => 0
  Ss := fun _ _ => 0
  Rc_r := fun _ => 0

/-- All-zero random-oracle outputs, one per round. -/
def zeroDests : ℕ → ℕ → ℕ := fun _ _ => 0

/-- A concrete environment with `sk = 1^n`, `b = 1^n`, `b_bar = 0^n`,
constant OT lanes satisfying the OT-correctness invariants, and
`bpr = 3`: used to instantiate the round-correctness theorem. -/
def demoEnv : Env where
  sk := fun _ => true
  b := fun _ => true
  b_bar := fun _ => false
  Sc0 := fun _ => 7
  Sc1 := fun _ => 11
  Rs_r := fun _ => 11
  bpr := fun _ => 3
  Ss := fun _ _ => 5
  Rc_r := fun _ => 5

/-- A concrete random-oracle output byte stream. -/
def demoDest : ℕ → ℕ := fun j => (3 * j + 7) % 256

/-! Basic numeric facts about the parameters. -/

lemma U32_pos : 0 < U32 := by decide

lemma q_pos : 0 < q := by decide

lemma p_pos : 0 < p := by decide

lemma delta_pos : 0 < delta := by decide

lemma q_eq_pow : q = 2 ^ 12 := rfl

lemma delta_eq_pow : delta = 2 ^ 4 := rfl

lemma p_eq_pow : p = 2 ^ 8 := rfl

lemma q_dvd_U32 : q ∣ U32 := ⟨2 ^ 20, by decide⟩

lemma delta_dvd_U32 : delta ∣ U32 := ⟨2 ^ 28, by decide⟩

lemma p_dvd_U32 : p ∣ U32 := ⟨2 ^ 24, by decide⟩

lemma q_eq_delta_mul_p : q = delta * p := by decide

lemma q_lt_U32 : q < U32 := by decide

/-! The C mask `& (m - 1)` for the power-of-two moduli is reduction mod `m`. -/

lemma and_q_eq_mod (x : ℕ) : x &&& (q - 1) = x % q := by
  rw [q_eq_pow]
  exact Nat.and_pow_two_sub_one_eq_mod x 12

lemma and_delta_eq_mod (x : ℕ) : x &&& (delta - 1) = x % delta := by
  rw [delta_eq_pow]
  exact Nat.and_pow_two_sub_one_eq_mod x 4

lemma and_p_eq_mod (x : ℕ) : x &&& (p - 1) = x % p := by
  rw [p_eq_pow]
  exact Nat.and_pow_two_sub_one_eq_mod x 8

lemma and_q_lt (x : ℕ) : x &&& (q - 1) < q := by
  rw [and_q_eq_mod]; exact Nat.mod_lt _ q_pos

lemma and_delta_lt (x : ℕ) : x &&& (delta - 1) < delta := by
  rw [and_delta_eq_mod]; exact Nat.mod_lt _ delta_pos

lemma and_p_lt (x : ℕ) : x &&& (p - 1) < p := by
  rw [and_p_eq_mod]; exact Nat.mod_lt _ p_pos

/-- The C right shift by `lg_delta` is division by `delta`. -/
lemma shiftr_delta (x : ℕ) : x >>> lg_delta = x / delta :=
  Nat.shiftRight_eq_div_pow x lg_delta

/-! Bridging `uint` arithmetic to modular arithmetic. -/

lemma usub_cast_int (x y : ℕ) : ((usub x y : ℕ) : ℤ) = ((x : ℤ) - y) % (U32 : ℕ) := by
  have h1 : y % U32 ≤ U32 := (Nat.mod_lt y U32_pos).le
  unfold usub
  push_cast [h1]
  rw [show ((x : ℤ) % (U32 : ℕ) + (((U32 : ℕ) : ℤ) - (y : ℤ) % (U32 : ℕ)))
        = ((x : ℤ) % (U32 : ℕ) - (y : ℤ) % (U32 : ℕ)) + ((U32 : ℕ) : ℤ) * 1 by ring,
      Int.add_mul_emod_self_left, ← Int.sub_emod]

/-- Casting a value reduced mod `M` into `ZMod m` for `m ∣ M` forgets the
reduction. -/
lemma natCast_mod_zmod (x M m : ℕ) (h : m ∣ M) : ((x % M : ℕ) : ZMod m) = (x : ZMod m) := by
  rw [ZMod.natCast_eq_natCast_iff]
  exact Nat.mod_mod_of_dvd x h

lemma usub_cast_zmod (x y m : ℕ) (h : m ∣ U32) :
    ((usub x y : ℕ) : ZMod m) = (x : ZMod m) - (y : ZMod m) := by
  have h1 : y % U32 ≤ U32 := (Nat.mod_lt y U32_pos).le
  have hx : ((x % U32 : ℕ) : ZMod m) = (x : ZMod m) := natCast_mod_zmod x U32 m h
  have hy : ((y % U32 : ℕ) : ZMod m) = (y : ZMod m) := natCast_mod_zmod y U32 m h
  have hU : ((U32 : ℕ) : ZMod m) = 0 := (ZMod.natCast_zmod_eq_zero_iff_dvd U32 m).mpr h
  rw [show usub x y = (x % U32 + (U32 - y % U32)) % U32 from rfl,
      natCast_mod_zmod _ _ _ h, Nat.cast_add, Nat.cast_sub h1, hx, hy, hU]
  ring

lemma and_q_cast_zmod (x : ℕ) : ((x &&& (q - 1) : ℕ) : ZMod q) = (x : ZMod q) := by
  rw [and_q_eq_mod]; exact natCast_mod_zmod x q q dvd_rfl

lemma and_delta_cast_zmod (x : ℕ) : ((x &&& (delta - 1) : ℕ) : ZMod delta) = (x : ZMod delta) := by
  rw [and_delta_eq_mod]; exact natCast_mod_zmod x delta delta dvd_rfl

lemma and_p_cast_zmod (x : ℕ) : ((x &&& (p - 1) : ℕ) : ZMod p) = (x : ZMod p) := by
  rw [and_p_eq_mod]; exact natCast_mod_zmod x p p dvd_rfl

/-- Two naturals below the modulus casting to the same `ZMod` value are equal. -/
lemma natCast_zmod_inj {m x y : ℕ} (hx : x < m) (hy : y < m)
    (h : (x : ZMod m) = (y : ZMod m)) : x = y := by
  have h2 := congrArg ZMod.val h
  rwa [ZMod.val_cast_of_lt hx, ZMod.val_cast_of_lt hy] at h2

/-- `uint` subtraction needs no wrap when the arguments are in range and ordered. -/
lemma usub_of_le (x y : ℕ) (hx : x < U32) (hy : y ≤ x) : usub x y = x - y := by
  unfold usub
  rw [Nat.mod_eq_of_lt hx, Nat.mod_eq_of_lt (lt_of_le_of_lt hy hx),
      show x + (U32 - y) = (x - y) + U32 by omega, Nat.add_mod_right]
  exact Nat.mod_eq_of_lt (by omega)

/-- The `uint` accumulator, seen in any `ZMod m` with `m ∣ 2 ^ 32`, is the
plain sum of its addends. -/
lemma accU32_cast_zmod (f : ℕ → ℕ) (m : ℕ) (h : m ∣ U32) :
    ∀ N, ((accU32 f N : ℕ) : ZMod m) = (((Finset.range N).sum f : ℕ) : ZMod m)
  | 0 => by simp [accU32]
  | N + 1 => by
    rw [accU32, natCast_mod_zmod _ _ _ h, Nat.cast_add, accU32_cast_zmod f m h N,
        Finset.sum_range_succ, Nat.cast_add]

/-- Without 32-bit overflow the `uint` accumulator is the exact sum. -/
lemma accU32_eq_sum (f : ℕ → ℕ) :
    ∀ N, (Finset.range N).sum f < U32 → accU32 f N = (Finset.range N).sum f
  | 0, _ => rfl
  | N + 1, h => by
    have hsub : (Finset.range N).sum f ≤ (Finset.range (N + 1)).sum f := by
      rw [Finset.sum_range_succ]; exact Nat.le_add_right _ _
    rw [accU32, accU32_eq_sum f N (lt_of_le_of_lt hsub h), ← Finset.sum_range_succ]
    exact Nat.mod_eq_of_lt h

/-- The per-step-masked accumulator computes the sum mod `q`. -/
lemma accMask_eq_sum_mod (f : ℕ → ℕ) :
    ∀ N, accMask f N = (Finset.range N).sum f % q
  | 0 => by simp [accMask]
  | N + 1 => by
    rw [accMask, and_q_eq_mod, accMask_eq_sum_mod f N, Finset.sum_range_succ,
        Nat.mod_add_mod]

/-- Clearing the low `lg_delta` bits before shifting right by `lg_delta`
is the identity: the Finalize `temp_val` equals `c_sum / delta`. -/
lemma temp_val_shift (c : ℕ) (hc : c < U32) :
    temp_val c = c >>> lg_delta ∧ temp_val c = (c - c % delta) / delta ∧
      temp_val c = c / delta := by
  have hmod : c &&& (delta - 1) = c % delta := and_delta_eq_mod c
  have hle : c % delta ≤ c := Nat.mod_le c delta
  have hdm := Nat.div_add_mod c delta
  have h1 : temp_val c = (c - c % delta) / delta := by
    rw [temp_val, hmod, usub_of_le c (c % delta) hc hle, shiftr_delta]
  have h2 : c - c % delta = delta * (c / delta) := by omega
  have h3 : (c - c % delta) / delta = c / delta := by
    rw [h2, Nat.mul_div_cancel_left _ delta_pos]
  exact ⟨by rw [h1, h3, shiftr_delta], h1, by rw [h1, h3]⟩

/-- Key rounding identity: reducing `delta * u + A` mod `q` and then
dividing by `delta` lands on `(u + A / delta) mod p`. -/
lemma mod_q_div_delta (u A : ℕ) : (delta * u + A) % q / delta = (u + A / delta) % p := by
  have hd : delta = 16 := rfl
  have hq : q = 4096 := rfl
  have hp : p = 256 := rfl
  rw [hd, hq, hp]
  omega

/-! Reading back the phase-one tiling writes. -/

lemma tileInner_apply_lt (b_n : ℕ → Bool) (j : ℕ) (arr : ℕ → Bool) :
    ∀ m i, i < m → tileInner b_n j m arr (j * n + i) = b_n i
  | 0, i, h => absurd h (Nat.not_lt_zero i)
  | m + 1, i, h => by
    rw [tileInner]
    rcases Nat.lt_succ_iff_lt_or_eq.mp h with h2 | h2
    · rw [Function.update_apply, if_neg (by omega)]
      exact tileInner_apply_lt b_n j arr m i h2
    · subst h2; exact Function.update_same _ _ _

lemma tileInner_apply_ne (b_n : ℕ → Bool) (j : ℕ) (arr : ℕ → Bool) :
    ∀ m x, (∀ i, i < m → x ≠ j * n + i) → tileInner b_n j m arr x = arr x
  | 0, _, _ => rfl
  | m + 1, x, hx => by
    rw [tileInner, Function.update_apply, if_neg (hx m (Nat.lt_succ_self m))]
    exact tileInner_apply_ne b_n j arr m x (fun i hi => hx i (Nat.lt_succ_of_lt hi))

lemma tileOuter_apply (b_n : ℕ → Bool) (arr : ℕ → Bool) :
    ∀ J j i, j < J → i < n → tileOuter b_n J arr (j * n + i) = b_n i
  | 0, j, _, hj, _ => absurd hj (Nat.not_lt_zero j)
  | J + 1, j, i, hj, hi => by
    have hn : n = 482 := rfl
    rw [tileOuter]
    rcases Nat.lt_succ_iff_lt_or_eq.mp hj with h2 | h2
    · rw [tileInner_apply_ne b_n J _ n (j * n + i)
        (by intro i2 hi2; rw [hn] at hi hi2 ⊢; omega)]
      exact tileOuter_apply b_n arr J j i h2 hi
    · rw [h2]; exact tileInner_apply_lt b_n J _ n i hi

/-! The online loop counter. -/

lemma session_ctr (E : Env) (dests : ℕ → ℕ → ℕ) : ∀ r, (session E dests r).1 = r
  | 0 => rfl
  | r + 1 => by rw [session, session_ctr E dests r]

lemma session_len (E : Env) (dests : ℕ → ℕ → ℕ) : ∀ r, (session E dests r).2.length = r
  | 0 => rfl
  | r + 1 => by
    rw [session]
    simp only [List.length_append, List.length_cons, List.length_nil,
      session_len E dests r]

/-! Range facts for the per-index round values. -/

lemma c_i_lt (E : Env) (ctr i : ℕ) : c_i E ctr i < q := and_q_lt _

lemma atilSel_lt (E : Env) (dest : ℕ → ℕ) (ctr i : ℕ) : atilSel E dest ctr i < q := by
  unfold atilSel
  by_cases h : E.sk i
  · rw [if_pos h]; exact and_q_lt _
  · rw [if_neg h]; exact and_q_lt _

lemma sum_lt_two_pow_21 (f : ℕ → ℕ) (hf : ∀ i, i < n → f i < q) (N : ℕ) (hN : N ≤ n) :
    (Finset.range N).sum f < 2 ^ 21 :=
  calc (Finset.range N).sum f
      ≤ (Finset.range N).sum (fun _ => q - 1) :=
        Finset.sum_le_sum (fun i hi =>
          Nat.le_pred_of_lt (hf i (lt_of_lt_of_le (Finset.mem_range.mp hi) hN)))
    _ = N * (q - 1) := by rw [Finset.sum_const, Finset.card_range, smul_eq_mul]
    _ ≤ n * (q - 1) := Nat.mul_le_mul_right _ hN
    _ < 2 ^ 21 := by decide

lemma accU32_and_eq_accMask (f : ℕ → ℕ) (hf : ∀ i, i < n → f i < q) :
    accU32 f n &&& (q - 1) = accMask f n := by
  rw [and_q_eq_mod,
      accU32_eq_sum f n (lt_trans (sum_lt_two_pow_21 f hf n le_rfl) (by decide)),
      accMask_eq_sum_mod]

/-- Claim C7: after the phase-one preprocessing receiver runs, the choice
vector is tiled: for all `j < tau` and `i < n`, `b[j*n+i] = b_n[i]` where
`b_n` is the fresh `n`-bit pattern; equivalently `b[j*n+i] = b[i]`. -/
theorem phase_one_tiling (b_n arr0 : ℕ → Bool) (j i : ℕ) (hj : j < tau) (hi : i < n) :
    phase_one_b b_n arr0 (j * n + i) = b_n i ∧
      phase_one_b b_n arr0 (j * n + i) = phase_one_b b_n arr0 i := by
  have h1 : phase_one_b b_n arr0 (j * n + i) = b_n i :=
    tileOuter_apply b_n arr0 tau j i hj hi
  have h0 : phase_one_b b_n arr0 (0 * n + i) = b_n i :=
    tileOuter_apply b_n arr0 tau 0 i (by decide) hi
  rw [Nat.zero_mul, Nat.zero_add] at h0
  exact ⟨h1, h1.trans h0.symm⟩

/-- Witness for C7 at `j = 3`, `i = 5`, with a constant-true pattern. -/
theorem phase_one_tiling_witness :
    ((3 : ℕ) < tau ∧ (5 : ℕ) < n) ∧
      (phase_one_b (fun _ => true) (fun _ => false) (3 * n + 5) = true ∧
        phase_one_b (fun _ => true) (fun _ => false) (3 * n + 5)
          = phase_one_b (fun _ => true) (fun _ => false) 5) :=
  ⟨⟨by decide, by decide⟩,
    phase_one_tiling (fun _ => true) (fun _ => false) 3 5 (by decide) (by decide)⟩

/-- Claim C9: for every 32-bit unsigned `c_sum`, the Finalize quantity
`(c_sum - (c_sum & (delta - 1))) >> lg_delta` equals `c_sum >> lg_delta`:
clearing the low `lg delta` bits before the shift is the identity, so the
subtraction is redundant but harmless. -/
theorem finalize_temp_val_identity (c : ℕ) (hc : c < U32) :
    temp_val c = c >>> lg_delta ∧ temp_val c = (c - c % delta) / delta ∧
      temp_val c = c / delta :=
  temp_val_shift c hc

/-- Witness for C9 at `c = 123456789`. -/
theorem finalize_temp_val_identity_witness :
    (123456789 : ℕ) < U32 ∧ temp_val 123456789 = 123456789 >>> lg_delta :=
  ⟨by decide, (finalize_temp_val_identity 123456789 (by decide)).1⟩

/-- Claim C10: reading lane 0 of an OT block through a signed `int32_t`
and converting to `uint` (as for `Sc_uint`, `Rs_r_uint`, `Ss_uint`,
`Rc_r_uint`) gives the same 32-bit value as reading it unsigned directly,
so every value later reduced mod `q`, mod `delta` or mod `p` is unchanged. -/
theorem lane0_sign_insensitive (v : ℕ) (hv : v < U32) :
    uintOfInt32 (toInt32 v) = v ∧ uintOfInt32 (toInt32 v) % q = v % q ∧
      uintOfInt32 (toInt32 v) % delta = v % delta ∧
      uintOfInt32 (toInt32 v) % p = v % p := by
  have hU : U32 = 4294967296 := rfl
  have h1 : uintOfInt32 (toInt32 v) = v := by
    unfold uintOfInt32 toInt32
    rw [hU] at hv ⊢
    by_cases h : v < 2 ^ 31
    · rw [if_pos h]; omega
    · rw [if_neg h]; omega
  exact ⟨h1, by rw [h1], by rw [h1], by rw [h1]⟩

/-- Witness for C10 at `v = 3000000000` (a value with the sign bit set). -/
theorem lane0_sign_insensitive_witness :
    (3000000000 : ℕ) < U32 ∧ uintOfInt32 (toInt32 3000000000) = 3000000000 :=
  ⟨by decide, (lane0_sign_insensitive 3000000000 (by decide)).1⟩

/-- Claim C8: the 32-bit accumulators for `c_sum` and `atil_sum` never
overflow: each addend is below `q`, there are `n` addends, and
`n * (q - 1) < 2 ^ 21 < 2 ^ 32`; accumulating without intermediate
reduction and masking with `q - 1` once after the loop equals reducing
after every addition. -/
theorem accumulator_no_overflow (E : Env) (dest : ℕ → ℕ) (ctr : ℕ) (f : ℕ → ℕ)
    (hf : ∀ i, i < n → f i < q) :
    n * (q - 1) < 2 ^ 21 ∧ (2 ^ 21 : ℕ) < 2 ^ 32 ∧
      (∀ N, N ≤ n → (Finset.range N).sum f < 2 ^ 21 ∧
        accU32 f N = (Finset.range N).sum f) ∧
      accU32 f n &&& (q - 1) = accMask f n ∧
      c_sum E ctr = accMask (c_i E ctr) n ∧
      atil_sum E dest ctr = accMask (atilSel E dest ctr) n := by
  refine ⟨by decide, by decide, fun N hN => ?_, accU32_and_eq_accMask f hf, ?_, ?_⟩
  · exact ⟨sum_lt_two_pow_21 f hf N hN,
      accU32_eq_sum f N (lt_trans (sum_lt_two_pow_21 f hf N hN) (by decide))⟩
  · exact accU32_and_eq_accMask (c_i E ctr) (fun i _ => c_i_lt E ctr i)
  · exact accU32_and_eq_accMask (atilSel E dest ctr) (fun i _ => atilSel_lt E dest ctr i)

/-- Witness for C8 with constant addends `f i = 4095 = q - 1`. -/
theorem accumulator_no_overflow_witness :
    (∀ i, i < n → (4095 : ℕ) < q) ∧
      accU32 (fun _ => 4095) n &&& (q - 1) = accMask (fun _ => 4095) n :=
  ⟨fun _ _ => by decide,
    (accumulator_no_overflow zeroEnv (fun _ => 0) 0 (fun _ => 4095)
      (fun _ _ => show (4095 : ℕ) < q by decide)).2.2.2.1⟩

/-- Claim C4: throughout a session `0 ≤ ctr ≤ num_rounds ≤ tau`; `ctr`
starts at 0, is incremented exactly once at the end of each completed
round, strictly increases across successful rounds, and equals
`num_rounds` when the online loop ends. -/
theorem ctr_discipline (E : Env) (dests : ℕ → ℕ → ℕ) (r s : ℕ)
    (hr : r ≤ num_rounds) (hs : r < s) :
    (session E dests 0).1 = 0 ∧
      (∀ r2, (session E dests (r2 + 1)).1 = (session E dests r2).1 + 1) ∧
      (session E dests r).1 = r ∧ (session E dests r).1 ≤ num_rounds ∧
      num_rounds ≤ tau ∧ (session E dests num_rounds).1 = num_rounds ∧
      (session E dests r).1 < (session E dests s).1 := by
  refine ⟨rfl, fun r2 => rfl, session_ctr E dests r, ?_, by decide,
    session_ctr E dests num_rounds, ?_⟩
  · rw [session_ctr]; exact hr
  · rw [session_ctr, session_ctr]; exact hs

/-- Witness for C4 at `r = 2`, `s = 7` on the all-zero environment. -/
theorem ctr_discipline_witness :
    ((2 : ℕ) ≤ num_rounds ∧ (2 : ℕ) < 7) ∧
      ((session zeroEnv zeroDests 0).1 = 0 ∧ (session zeroEnv zeroDests 2).1 = 2 ∧
        num_rounds ≤ tau ∧ (session zeroEnv zeroDests num_rounds).1 = num_rounds) :=
  ⟨⟨by decide, by decide⟩, by
    have h := ctr_discipline zeroEnv zeroDests 2 7 (by decide) (by decide)
    exact ⟨h.1, h.2.2.1, h.2.2.2.2.1, h.2.2.2.2.2.1⟩⟩

/-- Claim C3 counterexample: there is no startup validation; with the
round count set to `tau + 1 > tau` the program still enters the online
loop and executes all `tau + 1` rounds instead of refusing. -/
theorem startup_no_refusal_cex :
    tau < tau + 1 ∧ roundsExecuted zeroEnv zeroDests (tau + 1) = tau + 1 ∧
      roundsExecuted zeroEnv zeroDests (tau + 1) ≠ 0 := by
  refine ⟨Nat.lt_succ_self tau, session_len zeroEnv zeroDests (tau + 1), ?_⟩
  rw [roundsExecuted, session_len]
  exact Nat.succ_ne_zero tau

/-- Claim C3 amended: the source performs no startup validation of
`num_rounds` against `tau`: for every requested round count `nr`, even
with `nr > tau`, `main` enters the online loop and executes exactly `nr`
rounds; the shipped constants do satisfy `num_rounds ≤ tau`. -/
theorem startup_no_validation (E : Env) (dests : ℕ → ℕ → ℕ) (nr : ℕ)
    (h : tau < nr) :
    roundsExecuted E dests nr = nr ∧ (session E dests nr).1 = nr ∧
      num_rounds ≤ tau :=
  ⟨session_len E dests nr, session_ctr E dests nr, by decide⟩

/-- Witness for the amended C3 at `nr = tau + 1`. -/
theorem startup_no_validation_witness :
    tau < tau + 1 ∧ roundsExecuted zeroEnv zeroDests (tau + 1) = tau + 1 :=
  ⟨Nat.lt_succ_self tau,
    (startup_no_validation zeroEnv zeroDests (tau + 1) (Nat.lt_succ_self tau)).1⟩

/-- Claim C2 counterexample: with oracle bytes `dest = (1, 0, 0, ...)` the
code parses `a[0] = 256`, not the little-endian value `1`: `dest[2i]` is
the high byte, not the low byte. -/
theorem request_parse_little_endian_cex :
    a_of (fun j => if j = 0 then 1 else 0) 0 = 256 ∧
      ((fun j : ℕ => if j = 0 then 1 else 0) (2 * 0)
          + 2 ^ 8 * (fun j : ℕ => if j = 0 then 1 else 0) (2 * 0 + 1)) % q = 1 ∧
      a_of (fun j => if j = 0 then 1 else 0) 0
        ≠ ((fun j : ℕ => if j = 0 then 1 else 0) (2 * 0)
            + 2 ^ 8 * (fun j : ℕ => if j = 0 then 1 else 0) (2 * 0 + 1)) % q := by
  refine ⟨by decide, by decide, by decide⟩

/-- Claim C2 amended: the random-oracle output is parsed as `n` 16-bit
integers each reduced mod `q`, with `dest[2i]` the HIGH byte and
`dest[2i+1]` the LOW byte: `a[i] = (2^8 * dest[2i] + dest[2i+1]) mod q`,
for byte values below `2^8`. -/
theorem request_parse_big_endian (dest : ℕ → ℕ) (i : ℕ) (hi : i < n)
    (hlow : dest (2 * i + 1) < 2 ^ 8) :
    a_of dest i = (2 ^ 8 * dest (2 * i) + dest (2 * i + 1)) % q := by
  rw [a_of, Nat.shiftLeft_eq, and_q_eq_mod, mul_comm (dest (2 * i)) (2 ^ 8),
      ← Nat.mul_add_lt_is_or hlow (dest (2 * i))]

/-- Witness for the amended C2 with bytes `(171, 205)` at `i = 0`. -/
theorem request_parse_big_endian_witness :
    ((0 : ℕ) < n ∧ (fun j : ℕ => if j = 0 then 171 else if j = 1 then 205 else 0)
        (2 * 0 + 1) < 2 ^ 8) ∧
      a_of (fun j : ℕ => if j = 0 then 171 else if j = 1 then 205 else 0) 0
        = (2 ^ 8 * 171 + 205) % q :=
  ⟨⟨by decide, by decide⟩,
    request_parse_big_endian (fun j => if j = 0 then 171 else if j = 1 then 205 else 0)
      0 (by decide) (by decide)⟩

/-! Pinning `uint`-masked values to canonical mod-`m` representatives. -/

lemma usub_mod_imod (x y m : ℕ) (hm0 : 0 < m) (hm : ((m : ℕ) : ℤ) ∣ ((U32 : ℕ) : ℤ)) :
    (usub x y) % m = imod ((x : ℤ) - y) m := by
  have h1 : ((usub x y % m : ℕ) : ℤ) = ((x : ℤ) - y) % m := by
    push_cast
    rw [usub_cast_int, Int.emod_emod_of_dvd _ hm]
  have h2 : 0 ≤ ((x : ℤ) - y) % m :=
    Int.emod_nonneg _ (by exact_mod_cast hm0.ne')
  have h3 : ((usub x y % m : ℕ) : ℤ) = ((imod ((x : ℤ) - y) m : ℕ) : ℤ) := by
    rw [imod, Int.toNat_of_nonneg h2, h1]
  exact_mod_cast h3

lemma usub_and_q_imod (x y : ℕ) : usub x y &&& (q - 1) = imod ((x : ℤ) - y) q := by
  rw [and_q_eq_mod]
  exact usub_mod_imod x y q q_pos (by exact_mod_cast q_dvd_U32)

lemma usub_and_delta_imod (x y : ℕ) :
    usub x y &&& (delta - 1) = imod ((x : ℤ) - y) delta := by
  rw [and_delta_eq_mod]
  exact usub_mod_imod x y delta delta_pos (by exact_mod_cast delta_dvd_U32)

lemma mod_U32_and_q (x : ℕ) : (x % U32) &&& (q - 1) = x % q := by
  rw [and_q_eq_mod]
  exact Nat.mod_mod_of_dvd x q_dvd_U32

lemma mod_U32_and_p (x : ℕ) : (x % U32) &&& (p - 1) = x % p := by
  rw [and_p_eq_mod]
  exact Nat.mod_mod_of_dvd x p_dvd_U32

lemma c_sum_eq_sum_mod (E : Env) (ctr : ℕ) :
    c_sum E ctr = (Finset.range n).sum (c_i E ctr) % q := by
  rw [c_sum, and_q_eq_mod,
    accU32_eq_sum (c_i E ctr) n
      (lt_trans (sum_lt_two_pow_21 _ (fun i _ => c_i_lt E ctr i) n le_rfl) (by decide))]

lemma atil_sum_eq_sum_mod (E : Env) (dest : ℕ → ℕ) (ctr : ℕ) :
    atil_sum E dest ctr = (Finset.range n).sum (atilSel E dest ctr) % q := by
  rw [atil_sum, and_q_eq_mod,
    accU32_eq_sum (atilSel E dest ctr) n
      (lt_trans (sum_lt_two_pow_21 _ (fun i _ => atilSel_lt E dest ctr i) n le_rfl)
        (by decide))]

lemma y_lt (E : Env) (dest : ℕ → ℕ) (ctr k : ℕ) : y E dest ctr k < p := and_p_lt _

/-- Claim C5: in Request for round `ctr`, the client sets `e_0[i] = 0`,
`c_i = (e_0[i] - lane0(Sc[ctr*n+i][b_bar[i]])) mod q`,
`e_1[i] = (a[i] + c_i + lane0(Sc[ctr*n+i][1-b_bar[i]])) mod q`,
`c_sum = (sum of the c_i) mod q`,
`bpr_bar = ((c_sum mod delta) - bpr[ctr]) mod delta`, and the message
sent is exactly the triple `(e_0, e_1, bpr_bar)`. -/
theorem request_message_correct (E : Env) (dest : ℕ → ℕ) (ctr i : ℕ) (hi : i < n) :
    e0 i = 0 ∧
      c_i E ctr i = imod ((e0 i : ℤ) - scSel E (ctr * n + i) (E.b_bar i)) q ∧
      e1 E dest ctr i
        = (a_of dest i + c_i E ctr i + scSel E (ctr * n + i) (!E.b_bar i)) % q ∧
      c_sum E ctr = (Finset.range n).sum (c_i E ctr) % q ∧
      bpr_bar E ctr = imod (((c_sum E ctr % delta : ℕ) : ℤ) - E.bpr ctr) delta ∧
      requestMsg E dest ctr
        = ((List.range n).map e0, (List.range n).map (e1 E dest ctr), bpr_bar E ctr) := by
  refine ⟨rfl, usub_and_q_imod _ _, ?_, c_sum_eq_sum_mod E ctr, ?_, rfl⟩
  · rw [e1, mod_U32_and_q]
  · rw [bpr_bar, and_delta_eq_mod (c_sum E ctr), usub_and_delta_imod]

/-- Witness for C5 on a concrete environment at `ctr = 0`, `i = 0`. -/
theorem request_message_correct_witness :
    (0 : ℕ) < n ∧
      c_i demoEnv 0 0 = imod ((e0 0 : ℤ) - scSel demoEnv (0 * n + 0) (demoEnv.b_bar 0)) q ∧
      c_sum demoEnv 0 = (Finset.range n).sum (c_i demoEnv 0) % q :=
  ⟨by decide,
    (request_message_correct demoEnv demoDest 0 0 (by decide)).2.1,
    (request_message_correct demoEnv demoDest 0 0 (by decide)).2.2.2.1⟩

/-- Claim C6: in BlindEval for round `ctr`, the server computes
`atil[i][0] = (e_0[i] - lane0(Rs_r[ctr*n+i])) mod q`,
`atil[i][1] = (e_1[i] - lane0(Rs_r[ctr*n+i])) mod q`,
`atil_sum = (sum over i of atil[i][sk[i]]) mod q`, and for every
`k < delta`,
`y[k] = (floor(((atil_sum - k) mod q) / delta) + lane0(Ss[ctr][(k - bpr_bar) mod delta])) mod p`
where division by `delta` is a right shift by `lg delta`; the reply has
exactly `delta` entries, each below `p`. -/
theorem blindeval_correct (E : Env) (dest : ℕ → ℕ) (ctr i k : ℕ)
    (hi : i < n) (hk : k < delta) :
    atil0 E ctr i = imod ((e0 i : ℤ) - E.Rs_r (ctr * n + i)) q ∧
      atil1 E dest ctr i = imod ((e1 E dest ctr i : ℤ) - E.Rs_r (ctr * n + i)) q ∧
      atil_sum E dest ctr = (Finset.range n).sum (atilSel E dest ctr) % q ∧
      y E dest ctr k
        = (imod (((atil_sum E dest ctr : ℕ) : ℤ) - k) q / delta
            + E.Ss ctr (imod ((k : ℤ) - bpr_bar E ctr) delta)) % p ∧
      (yList E dest ctr).length = delta ∧
      (∀ v, v ∈ yList E dest ctr → v < p) := by
  refine ⟨usub_and_q_imod _ _, usub_and_q_imod _ _, atil_sum_eq_sum_mod E dest ctr,
    ?_, ?_, ?_⟩
  · rw [y, usub_and_q_imod, usub_and_delta_imod, shiftr_delta, mod_U32_and_p]
  · rw [yList, List.length_map, List.length_range]
  · intro v hv
    rw [yList, List.mem_map] at hv
    obtain ⟨k2, _, rfl⟩ := hv
    exact y_lt E dest ctr k2

/-- Witness for C6 on a concrete environment at `ctr = 0`, `i = 0`, `k = 2`. -/
theorem blindeval_correct_witness :
    ((0 : ℕ) < n ∧ (2 : ℕ) < delta) ∧
      y demoEnv demoDest 0 2
        = (imod (((atil_sum demoEnv demoDest 0 : ℕ) : ℤ) - ((2 : ℕ) : ℤ)) q / delta
            + demoEnv.Ss 0 (imod (((2 : ℕ) : ℤ) - ((bpr_bar demoEnv 0 : ℕ) : ℤ)) delta)) % p ∧
      (yList demoEnv demoDest 0).length = delta :=
  ⟨⟨by decide, by decide⟩,
    (blindeval_correct demoEnv demoDest 0 0 2 (by decide) (by decide)).2.2.2.1,
    (blindeval_correct demoEnv demoDest 0 0 2 (by decide) (by decide)).2.2.2.2.1⟩

/-! The mod-q congruence chain behind the online round. -/

lemma e1_cast_zmod (E : Env) (dest : ℕ → ℕ) (ctr i : ℕ) :
    ((e1 E dest ctr i : ℕ) : ZMod q)
      = ((a_of dest i + c_i E ctr i + scSel E (ctr * n + i) (!E.b_bar i) : ℕ) : ZMod q) := by
  rw [e1, and_q_cast_zmod, natCast_mod_zmod _ _ _ q_dvd_U32]

/-- With the OT-correctness hypotheses at index `i`, the server-selected
`atil[i][sk[i]]` is congruent mod `q` to `c_i` plus the `sk`-gated `a[i]`. -/
lemma atilSel_cast_zmod (E : Env) (dest : ℕ → ℕ) (ctr i : ℕ)
    (hb : E.b_bar i = Bool.xor (E.b i) (E.sk i))
    (hRs : E.Rs_r (ctr * n + i) = scSel E (ctr * n + i) (E.b i)) :
    ((atilSel E dest ctr i : ℕ) : ZMod q)
      = ((c_i E ctr i : ℕ) : ZMod q)
        + (if E.sk i then ((a_of dest i : ℕ) : ZMod q) else 0) := by
  by_cases hsk : E.sk i
  · rw [atilSel, if_pos hsk, if_pos hsk, atil1, and_q_cast_zmod,
      usub_cast_zmod _ _ q q_dvd_U32, hRs, e1_cast_zmod, hb, hsk, Bool.xor_true,
      Bool.not_not]
    push_cast
    ring
  · have hsk2 : E.sk i = false := Bool.eq_false_iff.mpr hsk
    rw [atilSel, if_neg hsk, if_neg hsk, atil0, hRs, c_i, hb, hsk2, Bool.xor_false,
      add_zero]

/-- Summed over all indices: `atil_sum = c_sum + (sum of a[i] with sk[i]=1)`
in `ZMod q`. -/
lemma atil_sum_cast_zmod (E : Env) (dest : ℕ → ℕ) (ctr : ℕ)
    (hb : ∀ i, i < n → E.b_bar i = Bool.xor (E.b i) (E.sk i))
    (hRs : ∀ i, i < n → E.Rs_r (ctr * n + i) = scSel E (ctr * n + i) (E.b i)) :
    ((atil_sum E dest ctr : ℕ) : ZMod q)
      = ((c_sum E ctr : ℕ) : ZMod q)
        + (((Finset.range n).sum (fun i => if E.sk i then a_of dest i else 0) : ℕ) : ZMod q) := by
  rw [atil_sum, and_q_cast_zmod, accU32_cast_zmod _ _ q_dvd_U32,
      c_sum, and_q_cast_zmod, accU32_cast_zmod _ _ q_dvd_U32]
  push_cast
  rw [← Finset.sum_add_distrib]
  refine Finset.sum_congr rfl (fun i hi => ?_)
  rw [atilSel_cast_zmod E dest ctr i (hb i (Finset.mem_range.mp hi))
      (hRs i (Finset.mem_range.mp hi))]

/-- Claim C1: for every secret key, round index and preprocessing
material satisfying the OT-correctness invariants
(`lane0(Rs_r[ctr*n+i]) = lane0(Sc[ctr*n+i][b[i]])`,
`lane0(Ss[ctr][bpr[ctr]]) = lane0(Rc_r[ctr])`,
`b_bar[i] = b[i] XOR sk[i]`, `bpr[ctr] < delta`), the finalized client
output `z` of the online round (Request then BlindEval then Finalize)
equals `(floor((sum over i with sk[i]=1 of a[i]) / delta)) mod p`, where
`a = H(t, x)` reduced componentwise mod `q` and the sum is over the
integers without reduction mod `q`. -/
theorem oprf_online_round_correct (E : Env) (dest : ℕ → ℕ) (ctr : ℕ)
    (hb : ∀ i, i < n → E.b_bar i = Bool.xor (E.b i) (E.sk i))
    (hRs : ∀ i, i < n → E.Rs_r (ctr * n + i) = scSel E (ctr * n + i) (E.b i))
    (hSs : E.Ss ctr (E.bpr ctr) = E.Rc_r ctr)
    (hbpr : E.bpr ctr < delta) :
    z E dest ctr
      = ((Finset.range n).sum (fun i => if E.sk i then a_of dest i else 0) / delta) % p := by
  have hcs_lt : c_sum E ctr < q := and_q_lt _
  have hdm := Nat.div_add_mod (c_sum E ctr) delta
  -- the Ss index selected in Finalize is exactly bpr[ctr]
  have hidx : (usub (c_sum E ctr &&& (delta - 1)) (bpr_bar E ctr)) &&& (delta - 1)
      = E.bpr ctr := by
    apply natCast_zmod_inj (and_delta_lt _) hbpr
    rw [and_delta_cast_zmod, usub_cast_zmod _ _ delta delta_dvd_U32,
        bpr_bar, and_delta_cast_zmod, and_delta_cast_zmod,
        usub_cast_zmod _ _ delta delta_dvd_U32, and_delta_cast_zmod]
    ring
  -- the masked quantity fed to the shift, seen in ZMod q
  have hw_cast : (((usub (atil_sum E dest ctr) (c_sum E ctr &&& (delta - 1)))
        &&& (q - 1) : ℕ) : ZMod q)
      = ((delta * (c_sum E ctr / delta)
          + (Finset.range n).sum (fun i => if E.sk i then a_of dest i else 0) : ℕ) : ZMod q) := by
    rw [and_q_cast_zmod, usub_cast_zmod _ _ q q_dvd_U32, and_delta_eq_mod,
        atil_sum_cast_zmod E dest ctr hb hRs]
    have h2 : ((c_sum E ctr : ℕ) : ZMod q)
        = ((delta * (c_sum E ctr / delta) + c_sum E ctr % delta : ℕ) : ZMod q) := by
      rw [hdm]
    rw [h2]
    push_cast
    ring
  -- hence its exact value
  have hW : (usub (atil_sum E dest ctr) (c_sum E ctr &&& (delta - 1))) &&& (q - 1)
      = (delta * (c_sum E ctr / delta)
          + (Finset.range n).sum (fun i => if E.sk i then a_of dest i else 0)) % q := by
    apply natCast_zmod_inj (and_q_lt _) (Nat.mod_lt _ q_pos)
    rw [natCast_mod_zmod _ _ _ (dvd_refl q)]
    exact hw_cast
  -- and the value of the shift
  have hwdiv : ((usub (atil_sum E dest ctr) (c_sum E ctr &&& (delta - 1)))
        &&& (q - 1)) / delta
      = (c_sum E ctr / delta
          + (Finset.range n).sum (fun i => if E.sk i then a_of dest i else 0) / delta) % p := by
    rw [hW, mod_q_div_delta]
  -- unfold the Finalize computation
  rw [z, y_final, y, hidx, hSs, shiftr_delta, hwdiv,
      (temp_val_shift _ (lt_trans hcs_lt q_lt_U32)).2.2]
  -- finish in ZMod p
  apply natCast_zmod_inj (and_p_lt _) (Nat.mod_lt _ p_pos)
  rw [and_p_cast_zmod, usub_cast_zmod _ _ p p_dvd_U32, usub_cast_zmod _ _ p p_dvd_U32,
      and_p_cast_zmod, natCast_mod_zmod _ _ _ p_dvd_U32,
      natCast_mod_zmod _ _ _ (dvd_refl p)]
  push_cast
  rw [natCast_mod_zmod _ _ _ (dvd_refl p)]
  push_cast
  ring

/-- Witness for C1 on the concrete environment `demoEnv` (all key bits 1,
OT invariants satisfied by constant lanes) at `ctr = 0`. -/
theorem oprf_online_round_correct_witness :
    demoEnv.bpr 0 < delta ∧
      z demoEnv demoDest 0
        = ((Finset.range n).sum (fun i => if demoEnv.sk i then a_of demoDest i else 0)
            / delta) % p :=
  ⟨by decide,
    oprf_online_round_correct demoEnv demoDest 0 (fun i _ => rfl) (fun i _ => rfl)
      rfl (by decide)⟩

end PoolOPRF
